import Mathlib

/-!
Verification of the line-indexed document patch protocol: a shallow
embedding of the directive extractor (`parseTextEditMarkup`), the patch
applier (`applyTextEditChanges`), the streaming-completeness check
(`hasIncompleteXmlTags`) and the split/join document-text bridge, with
theorems settling the specification's claims about them.

Text is modelled as `List Char`; the JavaScript string operations used by
the source (split on "\n", join, trim, regex scans over fixed patterns)
are embedded as explicit recursive scanners over the character list.
-/

namespace Patch

/-- Characters of a string literal. -/
def strL (s : String) : List Char := s.data

/-- ASCII whitespace as matched by the source's regex `\s` and `trim`. -/
def isWs (c : Char) : Bool :=
  c = ' ' || c = '\t' || c = '\n' || c = '\r' || c = Char.ofNat 11 || c = Char.ofNat 12

/-- `content.split("\n")`: split a character list on newline characters.
The empty text yields one empty line, as in JavaScript. -/
def splitNl : List Char → List (List Char)
  | [] => [[]]
  | c :: cs =>
    match splitNl cs with
    | [] => []
    | l :: ls => if c = '\n' then [] :: l :: ls else (c :: l) :: ls

/-- `lines.join("\n")`: interleave a single newline between lines. -/
def joinNl : List (List Char) → List Char
  | [] => []
  | [l] => l
  | l :: ls => l ++ '\n' :: joinNl ls

/-- `message.trim()`: drop leading and trailing whitespace. -/
def jsTrim (xs : List Char) : List Char :=
  ((xs.dropWhile isWs).reverse.dropWhile isWs).reverse

/-- Strip a literal from the front of the text, or fail. -/
def stripLit : List Char → List Char → Option (List Char)
  | [], xs => some xs
  | _ :: _, [] => none
  | l :: ls, x :: xs => if l = x then stripLit ls xs else none

/-- Skip `\s*`. -/
def skipWs (xs : List Char) : List Char := xs.dropWhile isWs

/-- Match `\s+`: at least one whitespace character, then any more. -/
def skipWs1 : List Char → Option (List Char)
  | [] => none
  | c :: cs => if isWs c then some (skipWs cs) else none

/-- ASCII decimal digit. -/
def isDigit (c : Char) : Bool := '0' ≤ c && c ≤ '9'

/-- Consume further digits, accumulating the value. -/
def takeDigits (acc : Nat) : List Char → Nat × List Char
  | [] => (acc, [])
  | c :: cs =>
    if isDigit c then takeDigits (acc * 10 + (c.toNat - '0'.toNat)) cs else (acc, c :: cs)

/-- Match `(\d+)` and return its decimal value, as `parseInt` does on an
all-digit capture. -/
def parseDigits : List Char → Option (Nat × List Char)
  | [] => none
  | c :: cs =>
    if isDigit c then some (takeDigits (c.toNat - '0'.toNat) cs) else none

/-- Split the text at the first occurrence of a literal: the part before
it and the part after it.  This is how a lazy `([\s\S]*?)` capture
followed by a closing literal matches. -/
def splitAtLit (lit : List Char) : List Char → Option (List Char × List Char)
  | [] =>
    match stripLit lit [] with
    | some rest => some ([], rest)
    | none => none
  | c :: cs =>
    match stripLit lit (c :: cs) with
    | some rest => some ([], rest)
    | none =>
      match splitAtLit lit cs with
      | some (a, b) => some (c :: a, b)
      | none => none

/-- The three directive kinds of the markup. -/
inductive EditType
  | insert
  | replace
  | delete
deriving DecidableEq, Repr

/-- The source's `TextEditOperation` object shape: a kind tag, a 1-based
line number, an optional count and an optional content payload. -/
structure TextEditOperation where
  type : EditType
  line : Int
  count : Option Int := none
  content : Option (List Char) := none
deriving DecidableEq, Repr

/-- The source's `edit.count || 1`: an absent count defaults to 1, and so
does a count of 0 (JavaScript treats 0 as falsy). -/
def countOr1 : Option Int → Int
  | none => 1
  | some v => if v = 0 then 1 else v

/-- Match the insert directive's regex at the current position:
`<textedit:insert\s+line\s*=\s*"(\d+)"\s*>` then a lazy payload up to the
first `</textedit:insert>`.  Returns the parsed operation and the text
after the match. -/
def tryInsert (xs : List Char) : Option (TextEditOperation × List Char) :=
  (stripLit (strL ("<textedit:insert")) xs).bind fun r1 =>
  (skipWs1 r1).bind fun r2 =>
  (stripLit (strL ("line")) r2).bind fun r3 =>
  (stripLit (strL ("=")) (skipWs r3)).bind fun r4 =>
  (stripLit (strL ("\"")) (skipWs r4)).bind fun r5 =>
  (parseDigits r5).bind fun p =>
  (stripLit (strL ("\"")) p.2).bind fun r7 =>
  (stripLit (strL (">")) (skipWs r7)).bind fun r8 =>
  (splitAtLit (strL ("</textedit:insert>")) r8).bind fun q =>
  some ({ type := EditType.insert, line := (p.1 : Int), content := some q.1 }, q.2)

/-- Match the optional `(?:\s+count\s*=\s*"(\d+)")?` attribute group. -/
def tryCountAttr (xs : List Char) : Option (Nat × List Char) :=
  (skipWs1 xs).bind fun r1 =>
  (stripLit (strL ("count")) r1).bind fun r2 =>
  (stripLit (strL ("=")) (skipWs r2)).bind fun r3 =>
  (stripLit (strL ("\"")) (skipWs r3)).bind fun r4 =>
  (parseDigits r4).bind fun p =>
  (stripLit (strL ("\"")) p.2).bind fun r6 =>
  some (p.1, r6)

/-- The value and rest of the optional count group: the parsed count
when the group matches, otherwise 1 with the text unconsumed, as in the
source's `match[2] ? parseInt(match[2], 10) : 1`. -/
def countAttrOr1 (xs : List Char) : Int × List Char :=
  match tryCountAttr xs with
  | some (k, r) => ((k : Int), r)
  | none => (1, xs)

/-- Match the replace directive's regex at the current position. -/
def tryReplace (xs : List Char) : Option (TextEditOperation × List Char) :=
  (stripLit (strL ("<textedit:replace")) xs).bind fun r1 =>
  (skipWs1 r1).bind fun r2 =>
  (stripLit (strL ("line")) r2).bind fun r3 =>
  (stripLit (strL ("=")) (skipWs r3)).bind fun r4 =>
  (stripLit (strL ("\"")) (skipWs r4)).bind fun r5 =>
  (parseDigits r5).bind fun p =>
  (stripLit (strL ("\"")) p.2).bind fun r7 =>
  (stripLit (strL (">")) (skipWs (countAttrOr1 r7).2)).bind fun r9 =>
  (splitAtLit (strL ("</textedit:replace>")) r9).bind fun q =>
  some ({ type := EditType.replace, line := (p.1 : Int),
          count := some (countAttrOr1 r7).1, content := some q.1 }, q.2)

/-- Match the self-closing delete directive's regex at the current
position: attributes then `\s*\/>`. -/
def tryDelete (xs : List Char) : Option (TextEditOperation × List Char) :=
  (stripLit (strL ("<textedit:delete")) xs).bind fun r1 =>
  (skipWs1 r1).bind fun r2 =>
  (stripLit (strL ("line")) r2).bind fun r3 =>
  (stripLit (strL ("=")) (skipWs r3)).bind fun r4 =>
  (stripLit (strL ("\"")) (skipWs r4)).bind fun r5 =>
  (parseDigits r5).bind fun p =>
  (stripLit (strL ("\"")) p.2).bind fun r7 =>
  (stripLit (strL ("/>")) (skipWs (countAttrOr1 r7).2)).bind fun rest =>
  some ({ type := EditType.delete, line := (p.1 : Int),
          count := some (countAttrOr1 r7).1 }, rest)

/-- `matchAll` over one of the directive regexes: scan left to right,
emitting each match and resuming after it, advancing one character past
a position where the pattern does not match.  The fuel is the text
length, which bounds the number of scanning steps. -/
def scanFor (m : List Char → Option (TextEditOperation × List Char)) :
    Nat → List Char → List TextEditOperation
  | 0, _ => []
  | _ + 1, [] => []
  | fuel + 1, x :: xs =>
    match m (x :: xs) with
    | some (op, rest) => op :: scanFor m fuel rest
    | none => scanFor m fuel xs

/-- Ghost-instrumented variant of `scanFor` that also records the
0-based position in the scanned text at which each match starts;
erasing the positions yields `scanFor` itself (proved below), so
theorems about the emission order of matches can speak about their
positions of first appearance. -/
def scanForAt (m : List Char → Option (TextEditOperation × List Char)) :
    Nat → Nat → List Char → List (Nat × TextEditOperation)
  | 0, _, _ => []
  | _ + 1, _, [] => []
  | fuel + 1, pos, x :: xs =>
    match m (x :: xs) with
    | some (op, rest) =>
      (pos, op) :: scanForAt m fuel (pos + ((x :: xs).length - rest.length)) rest
    | none => scanForAt m fuel (pos + 1) xs

/-- `parseTextEditMarkup(message)`: trim the message, collect all insert
matches, then all replace matches, then all delete matches (the source
pushes the three arrays in that order, not in order of appearance), and
filter each group by `line > 0` — and, for replace and delete, by
`(count || 1) > 0`, which a stored count of 0 passes. -/
def parseTextEditMarkup (message : List Char) : List TextEditOperation :=
  let t := jsTrim message
  let allInsertions :=
    (scanFor tryInsert t.length t).filter (fun e => decide (0 < e.line))
  let allReplacements :=
    (scanFor tryReplace t.length t).filter
      (fun e => decide (0 < e.line) && decide (0 < countOr1 e.count))
  let allDeletions :=
    (scanFor tryDelete t.length t).filter
      (fun e => decide (0 < e.line) && decide (0 < countOr1 e.count))
  allInsertions ++ allReplacements ++ allDeletions

/-- Count the non-overlapping matches of a pattern, scanning left to
right; `step` returns the length a match consumes at the current
position.  This is `(text.match(regex) || []).length` for the fixed
patterns below. -/
def countMatches (step : List Char → Option Nat) : Nat → List Char → Nat
  | 0, _ => 0
  | _ + 1, [] => 0
  | fuel + 1, x :: xs =>
    match step (x :: xs) with
    | some k => 1 + countMatches step fuel (List.drop k (x :: xs))
    | none => countMatches step fuel xs

/-- Match `[^>]*\/>` after a literal: succeeds when the first `>` of the
text is immediately preceded by `/`, returning the consumed length. -/
def selfCloseTail : List Char → Option Nat
  | [] => none
  | '/' :: '>' :: _ => some 2
  | '>' :: _ => none
  | _ :: rest => (selfCloseTail rest).map (· + 1)

/-- Match `[^>]*>` after a literal: succeeds when the text contains a
`>`, consuming up to and including the first one. -/
def gtTail : List Char → Option Nat
  | [] => none
  | '>' :: _ => some 1
  | _ :: rest => (gtTail rest).map (· + 1)

/-- One step of `/<textedit:(insert|replace|delete)/g`. -/
def stepOpenAny (xs : List Char) : Option Nat :=
  if (stripLit (strL ("<textedit:insert")) xs).isSome then some 16
  else if (stripLit (strL ("<textedit:replace")) xs).isSome then some 17
  else if (stripLit (strL ("<textedit:delete")) xs).isSome then some 16
  else none

/-- One step of `/<\/textedit:(insert|replace)>|<textedit:delete[^>]*\/>/g`. -/
def stepCloseAny (xs : List Char) : Option Nat :=
  if (stripLit (strL ("</textedit:insert>")) xs).isSome then some 18
  else if (stripLit (strL ("</textedit:replace>")) xs).isSome then some 19
  else
    match stripLit (strL ("<textedit:delete")) xs with
    | some rest => (selfCloseTail rest).map (16 + ·)
    | none => none

/-- Total opening markers of all three kinds, pooled. -/
def openTagsCount (msg : List Char) : Nat := countMatches stepOpenAny msg.length msg

/-- Total closing markers of all three kinds, pooled (the self-closing
delete form counts as a closing marker). -/
def closeTagsCount (msg : List Char) : Nat := countMatches stepCloseAny msg.length msg

/-- Lower-case an ASCII letter, for the `/i` regex flag. -/
def lowerAscii (c : Char) : Char :=
  if 'A' ≤ c ∧ c ≤ 'Z' then Char.ofNat (c.toNat + 32) else c

/-- `/<textedit:(insert|replace|delete)/i.test(message)`: does an opening
marker of any kind occur, case-insensitively? -/
def hasOpeningCi (msg : List Char) : Bool :=
  let t := msg.map lowerAscii
  (splitAtLit (strL ("<textedit:insert")) t).isSome ||
    (splitAtLit (strL ("<textedit:replace")) t).isSome ||
    (splitAtLit (strL ("<textedit:delete")) t).isSome

/-- The renderer's incompleteness check: a directive marker is present
(case-insensitive test) and the pooled opening count differs from the
pooled closing count. -/
def hasIncompleteXmlTags (msg : List Char) : Bool :=
  hasOpeningCi msg && decide (openTagsCount msg ≠ closeTagsCount msg)

/-- The completeness oracle `is_complete` is the negation of the
renderer's incompleteness check. -/
def isCompleteText (msg : List Char) : Bool := !hasIncompleteXmlTags msg

/-- The extractor's per-kind diagnostic counter
`(trimmedMessage.match(/<textedit:insert[^>]*>/g) || []).length`. -/
def openingInsertTags (msg : List Char) : Nat :=
  countMatches
    (fun xs =>
      match stripLit (strL ("<textedit:insert")) xs with
      | some rest => (gtTail rest).map (16 + ·)
      | none => none)
    msg.length msg

/-- The extractor's per-kind diagnostic counter
`(trimmedMessage.match(/<\/textedit:insert>/g) || []).length`. -/
def closingInsertTags (msg : List Char) : Nat :=
  countMatches
    (fun xs => if (stripLit (strL ("</textedit:insert>")) xs).isSome then some 18 else none)
    msg.length msg

/-- One remaining edit adjusted after an edit changed the line count:
edits addressing lines past the threshold move by `shift`, a result of 0
or below is clamped to 1, and a replace or delete pushed past the new
document length is clamped to the document length (at least 1). -/
def adjustEdit (shift : Int) (newLen : Nat) (thresh : Int) (d : TextEditOperation) :
    TextEditOperation :=
  if thresh < d.line then
    let l := d.line + shift
    if l ≤ 0 then { d with line := 1 }
    else if d.type ≠ EditType.insert ∧ (newLen : Int) < l then
      { d with line := max 1 (newLen : Int) }
    else { d with line := l }
  else d

/-- The propagation loop over the not-yet-applied edits: a no-op when the
line count did not change. -/
def adjustRest (shift : Int) (newLen : Nat) (thresh : Int)
    (rest : List TextEditOperation) : List TextEditOperation :=
  if shift = 0 then rest else rest.map (adjustEdit shift newLen thresh)

/-- The body of the applier's `for` loop, fuelled so that concrete runs
compute by kernel reduction; the fuel is the number of edits, and one
edit is consumed per step so the fuel never runs out on real calls. -/
def applyLoopF : Nat → List (List Char) → List TextEditOperation → List (List Char)
  | 0, lines, _ => lines
  | _ + 1, lines, [] => lines
  | fuel + 1, lines, e :: rest =>
    let lineIndex : Int := e.line - 1
    match e.type with
    | EditType.insert =>
      if lineIndex < 0 ∨ (lines.length : Int) + 1 < lineIndex then
        applyLoopF fuel lines rest
      else
        match e.content with
        | none => applyLoopF fuel lines rest
        | some [] => applyLoopF fuel lines rest
        | some (c :: cs) =>
          let newLines := splitNl (c :: cs)
          let idx : Nat :=
            if (lines.length : Int) < lineIndex then lines.length else lineIndex.toNat
          let lines' := lines.take idx ++ newLines ++ lines.drop idx
          applyLoopF fuel lines'
            (adjustRest (newLines.length : Int) lines'.length e.line rest)
    | EditType.replace =>
      if lineIndex < 0 ∨ (lines.length : Int) ≤ lineIndex then
        applyLoopF fuel lines rest
      else
        match e.content with
        | none => applyLoopF fuel lines rest
        | some [] => applyLoopF fuel lines rest
        | some (c :: cs) =>
          let cnt : Int := min (countOr1 e.count) ((lines.length : Int) - lineIndex)
          let newLines := splitNl (c :: cs)
          let idx : Nat :=
            if (lines.length : Int) ≤ lineIndex then lines.length - 1 else lineIndex.toNat
          let lines' := lines.take idx ++ newLines ++ lines.drop (idx + cnt.toNat)
          applyLoopF fuel lines'
            (adjustRest ((newLines.length : Int) - cnt) lines'.length
              (e.line + countOr1 e.count - 1) rest)
    | EditType.delete =>
      if lineIndex < 0 ∨ (lines.length : Int) ≤ lineIndex then
        applyLoopF fuel lines rest
      else
        let cnt : Int := min (countOr1 e.count) ((lines.length : Int) - lineIndex)
        let idx : Nat := lineIndex.toNat
        let lines' := lines.take idx ++ lines.drop (idx + cnt.toNat)
        applyLoopF fuel lines'
          (adjustRest (-cnt) lines'.length (e.line + countOr1 e.count - 1) rest)

/-- The applier's loop at its natural fuel. -/
def applyLoop (lines : List (List Char)) (edits : List TextEditOperation) :
    List (List Char) :=
  applyLoopF edits.length lines edits

/-- Stable insertion of an edit into a line-sorted list: the new element
goes before the first element with a line not below its own. -/
def sortedInsert (e : TextEditOperation) : List TextEditOperation → List TextEditOperation
  | [] => [e]
  | f :: fs => if e.line ≤ f.line then e :: f :: fs else f :: sortedInsert e fs

/-- `editsCopy.sort((a, b) => a.line - b.line)`: a stable ascending sort
by line number. -/
def sortEdits : List TextEditOperation → List TextEditOperation
  | [] => []
  | e :: es => sortedInsert e (sortEdits es)

/-- `applyTextEditChanges(content, edits)`: early-return on an empty edit
list, otherwise split into lines, sort the edits, run the loop and join. -/
def applyTextEditChanges (content : List Char) (edits : List TextEditOperation) :
    List Char :=
  if edits.isEmpty then content
  else joinNl (applyLoop (splitNl content) (sortEdits edits))

/-- Rank of a directive kind in the extractor's output grouping. -/
def kindRank : EditType → Nat
  | EditType.insert => 0
  | EditType.replace => 1
  | EditType.delete => 2

theorem adjustRest_length (shift : Int) (newLen : Nat) (thresh : Int)
    (rest : List TextEditOperation) :
    (adjustRest shift newLen thresh rest).length = rest.length := by
  rw [adjustRest]
  split <;> simp

theorem splitNl_ne_nil (s : List Char) : splitNl s ≠ [] := by
  cases s with
  | nil => simp [splitNl]
  | cons c cs =>
    have ih := splitNl_ne_nil cs
    cases h : splitNl cs with
    | nil => exact absurd h ih
    | cons l ls =>
      simp only [splitNl, h]
      split <;> simp

theorem joinNl_cons (c : Char) (l : List Char) (ls : List (List Char)) :
    joinNl ((c :: l) :: ls) = c :: joinNl (l :: ls) := by
  cases ls <;> simp [joinNl]

/-- C8: for every document text, splitting on line breaks and joining the
resulting lines with a single line break gives the text back; the
round trip holds for all inputs, with no trailing-newline exception
needed. -/
theorem C8_bridge_roundtrip (s : List Char) : joinNl (splitNl s) = s := by
  induction s with
  | nil => rfl
  | cons c cs ih =>
    cases h : splitNl cs with
    | nil => exact absurd h (splitNl_ne_nil cs)
    | cons l ls =>
      rw [h] at ih
      simp only [splitNl, h]
      split
      · next hc => simp [joinNl, ih, hc]
      · simp [joinNl_cons, ih]

/-- C9: applying an empty batch returns the document unchanged. -/
theorem C9_empty_batch (content : List Char) :
    applyTextEditChanges content [] = content := rfl

/-- C1: on the five-line document, the two-line insert at line 2 shifts
the replace's target from line 4 down to line 6, and the batch produces
exactly the expected seven lines. -/
theorem C1_cascading_shift :
    splitNl (applyTextEditChanges (strL ("L1\nL2\nL3\nL4\nL5"))
      [⟨EditType.insert, 2, none, some (strL ("A\nB"))⟩,
       ⟨EditType.replace, 4, some 1, some (strL ("R"))⟩]) =
    [strL ("L1"), strL ("A"), strL ("B"), strL ("L2"), strL ("L3"),
     strL ("R"), strL ("L5")] := by decide

/-- C7: a replace or delete whose 0-based index is outside the current
document is skipped entirely — the loop continues on the same lines and
the same remaining edits, with no shift propagated. -/
theorem C7_out_of_range_skip (lines : List (List Char)) (e : TextEditOperation)
    (rest : List TextEditOperation)
    (htype : e.type = EditType.replace ∨ e.type = EditType.delete)
    (hrange : e.line - 1 < 0 ∨ (lines.length : Int) ≤ e.line - 1) :
    applyLoop lines (e :: rest) = applyLoop lines rest := by
  rcases htype with h | h <;>
  · simp only [applyLoop, applyLoopF, List.length_cons, h]
    rw [if_pos hrange]

/-- C7 witness: Replace at line 10 of a three-line document is skipped,
and the whole apply call returns the input unchanged. -/
theorem C7_out_of_range_skip_witness :
    applyLoop [strL ("a"), strL ("b"), strL ("c")]
        [⟨EditType.replace, 10, some 1, some (strL ("X"))⟩] =
      [strL ("a"), strL ("b"), strL ("c")] ∧
    applyTextEditChanges (strL ("a\nb\nc"))
        [⟨EditType.replace, 10, some 1, some (strL ("X"))⟩] = strL ("a\nb\nc") := by
  refine ⟨?_, by decide⟩
  exact (C7_out_of_range_skip [strL ("a"), strL ("b"), strL ("c")]
    ⟨EditType.replace, 10, some 1, some (strL ("X"))⟩ [] (Or.inl rfl) (by decide)).trans rfl

/-- C10: an insert or replace whose content is absent or empty mutates
nothing and propagates no shift: the loop continues on the same lines
and the same remaining edits. -/
theorem C10_empty_content_noop (lines : List (List Char)) (e : TextEditOperation)
    (rest : List TextEditOperation)
    (htype : e.type = EditType.insert ∨ e.type = EditType.replace)
    (hcont : e.content = none ∨ e.content = some []) :
    applyLoop lines (e :: rest) = applyLoop lines rest := by
  rcases htype with h | h <;> rcases hcont with hc | hc <;>
    simp only [applyLoop, applyLoopF, List.length_cons, h, hc] <;>
    split <;> rfl

/-- C10 witness: an empty-content insert at line 1 of a one-line
document leaves the document as it is. -/
theorem C10_empty_content_noop_witness :
    applyLoop [strL ("a")] [⟨EditType.insert, 1, none, some []⟩] = [strL ("a")] :=
  (C10_empty_content_noop [strL ("a")] ⟨EditType.insert, 1, none, some []⟩ []
    (Or.inl rfl) (Or.inr rfl)).trans rfl

/-- C4 counterexample: inserting at line 6 of a three-line document
(0-based index 5, two past the document length) is rejected outright:
the document comes back unchanged and the content is never appended. -/
theorem C4_counterexample :
    applyTextEditChanges (strL ("a\nb\nc"))
        [⟨EditType.insert, 6, none, some (strL ("X"))⟩] = strL ("a\nb\nc") ∧
      strL ("a\nb\nc") ≠ strL ("a\nb\nc\nX") := by decide

/-- C4 amended: an insert with positive line and non-empty content is
applied when its 0-based index is at most lines.len() + 1, with the
insertion point clamped to lines.len(); an insert whose index exceeds
lines.len() + 1 is skipped entirely. -/
theorem C4_amended (lines : List (List Char)) (e : TextEditOperation)
    (rest : List TextEditOperation) (c : Char) (cs : List Char)
    (htype : e.type = EditType.insert) (hcont : e.content = some (c :: cs))
    (hline : 1 ≤ e.line) :
    (e.line - 1 ≤ (lines.length : Int) + 1 →
      applyLoop lines (e :: rest) =
        (let nl := splitNl (c :: cs)
         let idx := min (e.line - 1).toNat lines.length
         let lines' := lines.take idx ++ nl ++ lines.drop idx
         applyLoop lines' (adjustRest (nl.length : Int) lines'.length e.line rest))) ∧
    ((lines.length : Int) + 1 < e.line - 1 →
      applyLoop lines (e :: rest) = applyLoop lines rest) := by
  constructor
  · intro h
    have hidx : (if (lines.length : Int) < e.line - 1 then lines.length
        else (e.line - 1).toNat) = min (e.line - 1).toNat lines.length := by
      split <;> omega
    simp only [applyLoop, applyLoopF, List.length_cons, htype, hcont]
    rw [if_neg (by omega), hidx, adjustRest_length]
  · intro h
    simp only [applyLoop, applyLoopF, List.length_cons, htype, hcont]
    rw [if_pos (Or.inr h)]

/-- C4 witness: an insert addressed one line past the end (index equal to
lines.len() + 1) is clamped and appended at the end of the document. -/
theorem C4_amended_witness :
    applyLoop [strL ("a"), strL ("b"), strL ("c")]
        [⟨EditType.insert, 5, none, some (strL ("X"))⟩] =
      [strL ("a"), strL ("b"), strL ("c"), strL ("X")] :=
  (((C4_amended [strL ("a"), strL ("b"), strL ("c")]
        ⟨EditType.insert, 5, none, some (strL ("X"))⟩ [] 'X' []
        rfl rfl (by decide)).1 (by decide)).trans (by decide))

/-- C2 counterexample: deleting 10 lines at line 2 of a five-line
document touches only 4 lines (effective count 4, shift -4, so the
claim's boundary is 2 + 4 - 1 = 5), yet the remaining insert at line 6 —
above that boundary — is left unchanged, because the code's threshold is
2 + 10 - 1 = 11; end to end the unshifted insert is then out of range
and dropped, leaving just one line. -/
theorem C2_counterexample :
    adjustRest (-(min (countOr1 (some 10)) ((5 : Int) - 1))) 1
        (2 + countOr1 (some 10) - 1)
        [⟨EditType.insert, 6, none, some (strL ("X"))⟩] =
      [⟨EditType.insert, 6, none, some (strL ("X"))⟩] ∧
    (2 + min (countOr1 (some 10)) ((5 : Int) - 1) - 1 < 6) ∧
    -(min (countOr1 (some 10)) ((5 : Int) - 1)) ≠ 0 ∧
    applyLoop [strL ("a"), strL ("b"), strL ("c"), strL ("d"), strL ("e")]
        [⟨EditType.delete, 2, some 10, none⟩,
         ⟨EditType.insert, 6, none, some (strL ("X"))⟩] = [strL ("a")] := by
  decide

/-- C2 amended: the shift-propagation boundary is directive.line + count
minus 1 where count is the directive's raw count (defaulting to 1 when
absent or 0), not the count clamped to the lines actually touched; a
remaining directive above the boundary has its line moved by the shift
and clamped (to at least 1, and for replace/delete to at most the new
document length), and one at or below the boundary is left unchanged. -/
theorem C2_amended (lines : List (List Char)) (e d : TextEditOperation)
    (rest : List TextEditOperation) (shift bound : Int) (newLen : Nat)
    (hs : shift ≠ 0) :
    (e.type = EditType.delete → 0 ≤ e.line - 1 → e.line - 1 < (lines.length : Int) →
      applyLoop lines (e :: rest) =
        (let cnt := min (countOr1 e.count) ((lines.length : Int) - (e.line - 1))
         let lines' := lines.take (e.line - 1).toNat ++
           lines.drop ((e.line - 1).toNat + cnt.toNat)
         applyLoop lines' (adjustRest (-cnt) lines'.length
           (e.line + countOr1 e.count - 1) rest))) ∧
    (∀ c cs, e.type = EditType.replace → e.content = some (c :: cs) →
      0 ≤ e.line - 1 → e.line - 1 < (lines.length : Int) →
      applyLoop lines (e :: rest) =
        (let cnt := min (countOr1 e.count) ((lines.length : Int) - (e.line - 1))
         let nl := splitNl (c :: cs)
         let lines' := lines.take (e.line - 1).toNat ++ nl ++
           lines.drop ((e.line - 1).toNat + cnt.toNat)
         applyLoop lines' (adjustRest ((nl.length : Int) - cnt) lines'.length
           (e.line + countOr1 e.count - 1) rest))) ∧
    (d.line ≤ bound → adjustEdit shift newLen bound d = d) ∧
    (bound < d.line → (adjustEdit shift newLen bound d).line =
      (if d.line + shift ≤ 0 then 1
       else if d.type ≠ EditType.insert ∧ (newLen : Int) < d.line + shift then
         max 1 (newLen : Int)
       else d.line + shift)) := by
  refine ⟨?_, ?_, ?_, ?_⟩
  · intro htype h0 h1
    simp only [applyLoop, applyLoopF, List.length_cons, htype]
    rw [if_neg (by omega), adjustRest_length]
  · intro c cs htype hcont h0 h1
    have hidx : (if (lines.length : Int) ≤ e.line - 1 then lines.length - 1
        else (e.line - 1).toNat) = (e.line - 1).toNat := if_neg (by omega)
    simp only [applyLoop, applyLoopF, List.length_cons, htype, hcont]
    rw [if_neg (by omega), hidx, adjustRest_length]
  · intro hle
    rw [adjustEdit, if_neg (by omega)]
  · intro hgt
    simp only [adjustEdit, if_pos hgt]
    by_cases h1 : d.line + shift ≤ 0
    · simp [h1]
    · by_cases h2 : d.type ≠ EditType.insert ∧ (newLen : Int) < d.line + shift
      · simp only [h1, if_false, if_neg h1, if_pos h2]
      · simp [h1, h2]

/-- C2 witness: the delete step of the counterexample scenario, obtained
from the amended step equation and evaluated to the final one-line
document. -/
theorem C2_amended_witness :
    applyLoop [strL ("a"), strL ("b"), strL ("c"), strL ("d"), strL ("e")]
        [⟨EditType.delete, 2, some 10, none⟩,
         ⟨EditType.insert, 6, none, some (strL ("X"))⟩] = [strL ("a")] := by
  have h := (C2_amended [strL ("a"), strL ("b"), strL ("c"), strL ("d"), strL ("e")]
    ⟨EditType.delete, 2, some 10, none⟩ ⟨EditType.insert, 6, none, some (strL ("X"))⟩
    [⟨EditType.insert, 6, none, some (strL ("X"))⟩] 1 1 1 (by decide)).1
    rfl (by decide) (by decide)
  exact h.trans (by decide)

theorem countAttrOr1_nonneg (xs : List Char) : 0 ≤ (countAttrOr1 xs).1 := by
  rw [countAttrOr1]
  cases tryCountAttr xs with
  | none => simp
  | some p =>
    rcases p with ⟨k, r⟩
    exact Int.natCast_nonneg k

theorem tryInsert_shape (xs : List Char) (op : TextEditOperation) (rest : List Char)
    (h : tryInsert xs = some (op, rest)) :
    op.type = EditType.insert ∧ op.count = none := by
  simp only [tryInsert, Option.bind_eq_some, Option.some.injEq, Prod.mk.injEq] at h
  obtain ⟨r1, -, r2, -, r3, -, r4, -, r5, -, p, -, r7, -, r8, -, q, -, hop, -⟩ := h
  rw [← hop]
  exact ⟨rfl, rfl⟩

theorem tryReplace_shape (xs : List Char) (op : TextEditOperation) (rest : List Char)
    (h : tryReplace xs = some (op, rest)) :
    op.type = EditType.replace ∧ ∃ k, op.count = some k ∧ 0 ≤ k := by
  simp only [tryReplace, Option.bind_eq_some, Option.some.injEq, Prod.mk.injEq] at h
  obtain ⟨r1, -, r2, -, r3, -, r4, -, r5, -, p, -, r7, -, r9, -, q, -, hop, -⟩ := h
  rw [← hop]
  exact ⟨rfl, (countAttrOr1 r7).1, rfl, countAttrOr1_nonneg r7⟩

theorem tryDelete_shape (xs : List Char) (op : TextEditOperation) (rest : List Char)
    (h : tryDelete xs = some (op, rest)) :
    op.type = EditType.delete ∧ ∃ k, op.count = some k ∧ 0 ≤ k := by
  simp only [tryDelete, Option.bind_eq_some, Option.some.injEq, Prod.mk.injEq] at h
  obtain ⟨r1, -, r2, -, r3, -, r4, -, r5, -, p, -, r7, -, rest2, -, hop, -⟩ := h
  rw [← hop]
  exact ⟨rfl, (countAttrOr1 r7).1, rfl, countAttrOr1_nonneg r7⟩

theorem scanFor_mem (m : List Char → Option (TextEditOperation × List Char))
    (P : TextEditOperation → Prop)
    (hm : ∀ xs op rest, m xs = some (op, rest) → P op) :
    ∀ fuel xs op, op ∈ scanFor m fuel xs → P op := by
  intro fuel
  induction fuel with
  | zero => intro xs op h; simp [scanFor] at h
  | succ n ih =>
    intro xs op h
    cases xs with
    | nil => simp [scanFor] at h
    | cons x xs' =>
      rw [scanFor] at h
      cases hx : m (x :: xs') with
      | none => rw [hx] at h; exact ih _ _ h
      | some pr =>
        rw [hx] at h
        rcases pr with ⟨op', rest⟩
        rcases List.mem_cons.mp h with h1 | h1
        · exact h1 ▸ hm _ _ _ hx
        · exact ih _ _ h1

theorem mem_parseTextEditMarkup (text : List Char) (e : TextEditOperation)
    (hmem : e ∈ parseTextEditMarkup text) :
    (0 < e.line ∧
      ((e.type = EditType.insert ∧ e.count = none) ∨
        ((e.type = EditType.replace ∨ e.type = EditType.delete) ∧
          0 < countOr1 e.count ∧ ∃ k, e.count = some k ∧ 0 ≤ k))) := by
  rw [parseTextEditMarkup] at hmem
  rcases List.mem_append.mp hmem with h | h
  · rcases List.mem_append.mp h with h1 | h1
    · obtain ⟨hs, hp⟩ := List.mem_filter.mp h1
      refine ⟨by simpa using hp, Or.inl ?_⟩
      exact scanFor_mem tryInsert _ (fun xs op rest hx => tryInsert_shape xs op rest hx)
        _ _ _ hs
    · obtain ⟨hs, hp⟩ := List.mem_filter.mp h1
      have hsh := scanFor_mem tryReplace _
        (fun xs op rest hx => tryReplace_shape xs op rest hx) _ _ _ hs
      simp only [Bool.and_eq_true, decide_eq_true_eq] at hp
      exact ⟨hp.1, Or.inr ⟨Or.inl hsh.1, hp.2, hsh.2⟩⟩
  · obtain ⟨hs, hp⟩ := List.mem_filter.mp h
    have hsh := scanFor_mem tryDelete _
      (fun xs op rest hx => tryDelete_shape xs op rest hx) _ _ _ hs
    simp only [Bool.and_eq_true, decide_eq_true_eq] at hp
    exact ⟨hp.1, Or.inr ⟨Or.inr hsh.1, hp.2, hsh.2⟩⟩

theorem pairwise_rank_const (l : List TextEditOperation) (t : EditType)
    (h : ∀ e ∈ l, e.type = t) :
    l.Pairwise (fun a b => kindRank a.type ≤ kindRank b.type) := by
  induction l with
  | nil => exact List.Pairwise.nil
  | cons x xs ih =>
    refine List.Pairwise.cons ?_ (ih (fun e he => h e (List.mem_cons_of_mem x he)))
    intro b hb
    rw [h x (List.mem_cons_self x xs), h b (List.mem_cons_of_mem x hb)]

theorem stripLit_length : ∀ (lit xs r : List Char), stripLit lit xs = some r →
    r.length + lit.length = xs.length := by
  intro lit
  induction lit with
  | nil =>
    intro xs r h
    rw [stripLit] at h
    cases h
    simp
  | cons l ls ih =>
    intro xs r h
    cases xs with
    | nil => rw [stripLit] at h; cases h
    | cons x xs' =>
      rw [stripLit] at h
      split at h
      · have := ih xs' r h
        simp only [List.length_cons]
        omega
      · cases h

theorem skipWs_le (xs : List Char) : (skipWs xs).length ≤ xs.length := by
  rw [skipWs]
  induction xs with
  | nil => simp
  | cons x xs' ih =>
    rw [List.dropWhile]
    split
    · simp only [List.length_cons]
      omega
    · simp

theorem skipWs1_lt (xs r : List Char) (h : skipWs1 xs = some r) :
    r.length < xs.length := by
  cases xs with
  | nil => simp [skipWs1] at h
  | cons c cs =>
    rw [skipWs1] at h
    split at h
    · cases h
      have := skipWs_le cs
      simp only [List.length_cons]
      omega
    · cases h

theorem takeDigits_le : ∀ (xs : List Char) (acc : Nat),
    (takeDigits acc xs).2.length ≤ xs.length := by
  intro xs
  induction xs with
  | nil => intro acc; simp [takeDigits]
  | cons c cs ih =>
    intro acc
    rw [takeDigits]
    split
    · exact le_trans (ih _) (by simp)
    · simp

theorem parseDigits_le (xs : List Char) (p : Nat × List Char)
    (h : parseDigits xs = some p) : p.2.length ≤ xs.length := by
  cases xs with
  | nil => simp [parseDigits] at h
  | cons c cs =>
    rw [parseDigits] at h
    split at h
    · cases h
      exact le_trans (takeDigits_le cs _) (by simp)
    · cases h

theorem splitAtLit_le (lit : List Char) : ∀ (xs : List Char)
    (q : List Char × List Char), splitAtLit lit xs = some q →
    q.2.length ≤ xs.length := by
  intro xs
  induction xs with
  | nil =>
    intro q h
    rw [splitAtLit] at h
    cases hs : stripLit lit [] with
    | none => rw [hs] at h; cases h
    | some rest =>
      rw [hs] at h
      cases h
      have := stripLit_length _ _ _ hs
      show rest.length ≤ List.length []
      simp only [List.length_nil] at this ⊢
      omega
  | cons c cs ih =>
    intro q h
    rw [splitAtLit] at h
    cases hs : stripLit lit (c :: cs) with
    | some rest =>
      rw [hs] at h
      cases h
      have := stripLit_length _ _ _ hs
      show rest.length ≤ (c :: cs).length
      simp only [List.length_cons] at this ⊢
      omega
    | none =>
      rw [hs] at h
      cases hsp : splitAtLit lit cs with
      | none => rw [hsp] at h; cases h
      | some q' =>
        rw [hsp] at h
        rcases q' with ⟨a, b⟩
        cases h
        have hb : b.length ≤ cs.length := ih (a, b) hsp
        show b.length ≤ (c :: cs).length
        simp only [List.length_cons]
        omega

theorem tryCountAttr_le (xs : List Char) (p : Nat × List Char)
    (h : tryCountAttr xs = some p) : p.2.length ≤ xs.length := by
  simp only [tryCountAttr, Option.bind_eq_some, Option.some.injEq] at h
  obtain ⟨r1, h1, r2, h2, r3, h3, r4, h4, q, hq, r6, h6, hp⟩ := h
  have e1 := skipWs1_lt _ _ h1
  have e2 := stripLit_length _ _ _ h2
  have e3 := stripLit_length _ _ _ h3
  have e3' := skipWs_le r2
  have e4 := stripLit_length _ _ _ h4
  have e4' := skipWs_le r3
  have e5 := parseDigits_le _ _ hq
  have e6 := stripLit_length _ _ _ h6
  rw [← hp]
  show r6.length ≤ xs.length
  omega

theorem countAttrOr1_le (xs : List Char) :
    (countAttrOr1 xs).2.length ≤ xs.length := by
  rw [countAttrOr1]
  cases h : tryCountAttr xs with
  | none => simp
  | some p =>
    rcases p with ⟨k, r⟩
    have := tryCountAttr_le xs (k, r) h
    simpa using this

theorem tryInsert_consumes (xs : List Char) (op : TextEditOperation)
    (rest : List Char) (h : tryInsert xs = some (op, rest)) :
    rest.length < xs.length := by
  simp only [tryInsert, Option.bind_eq_some, Option.some.injEq, Prod.mk.injEq] at h
  obtain ⟨r1, h1, r2, h2, r3, h3, r4, h4, r5, h5, p, hp, r7, h7, r8, h8, q, hq,
    hop, hrest⟩ := h
  have hL : 0 < (strL ("<textedit:insert")).length := by decide
  have e1 := stripLit_length _ _ _ h1
  have e2 := skipWs1_lt _ _ h2
  have e3 := stripLit_length _ _ _ h3
  have e4 := stripLit_length _ _ _ h4
  have e4' := skipWs_le r3
  have e5 := stripLit_length _ _ _ h5
  have e5' := skipWs_le r4
  have ep := parseDigits_le _ _ hp
  have e7 := stripLit_length _ _ _ h7
  have e8 := stripLit_length _ _ _ h8
  have e8' := skipWs_le r7
  have eq2 := splitAtLit_le _ _ _ hq
  rw [← hrest]
  omega

theorem tryReplace_consumes (xs : List Char) (op : TextEditOperation)
    (rest : List Char) (h : tryReplace xs = some (op, rest)) :
    rest.length < xs.length := by
  simp only [tryReplace, Option.bind_eq_some, Option.some.injEq, Prod.mk.injEq] at h
  obtain ⟨r1, h1, r2, h2, r3, h3, r4, h4, r5, h5, p, hp, r7, h7, r9, h9, q, hq,
    hop, hrest⟩ := h
  have hL : 0 < (strL ("<textedit:replace")).length := by decide
  have e1 := stripLit_length _ _ _ h1
  have e2 := skipWs1_lt _ _ h2
  have e3 := stripLit_length _ _ _ h3
  have e4 := stripLit_length _ _ _ h4
  have e4' := skipWs_le r3
  have e5 := stripLit_length _ _ _ h5
  have e5' := skipWs_le r4
  have ep := parseDigits_le _ _ hp
  have e7 := stripLit_length _ _ _ h7
  have ec := countAttrOr1_le r7
  have e9 := stripLit_length _ _ _ h9
  have e9' := skipWs_le (countAttrOr1 r7).2
  have eq2 := splitAtLit_le _ _ _ hq
  rw [← hrest]
  omega

theorem tryDelete_consumes (xs : List Char) (op : TextEditOperation)
    (rest : List Char) (h : tryDelete xs = some (op, rest)) :
    rest.length < xs.length := by
  simp only [tryDelete, Option.bind_eq_some, Option.some.injEq, Prod.mk.injEq] at h
  obtain ⟨r1, h1, r2, h2, r3, h3, r4, h4, r5, h5, p, hp, r7, h7, rest2, h9,
    hop, hrest⟩ := h
  have hL : 0 < (strL ("<textedit:delete")).length := by decide
  have e1 := stripLit_length _ _ _ h1
  have e2 := skipWs1_lt _ _ h2
  have e3 := stripLit_length _ _ _ h3
  have e4 := stripLit_length _ _ _ h4
  have e4' := skipWs_le r3
  have e5 := stripLit_length _ _ _ h5
  have e5' := skipWs_le r4
  have ep := parseDigits_le _ _ hp
  have e7 := stripLit_length _ _ _ h7
  have ec := countAttrOr1_le r7
  have e9 := stripLit_length _ _ _ h9
  have e9' := skipWs_le (countAttrOr1 r7).2
  rw [← hrest]
  omega

theorem scanForAt_map_snd (m : List Char → Option (TextEditOperation × List Char)) :
    ∀ fuel pos xs, (scanForAt m fuel pos xs).map Prod.snd = scanFor m fuel xs := by
  intro fuel
  induction fuel with
  | zero => intro pos xs; rfl
  | succ n ih =>
    intro pos xs
    cases xs with
    | nil => rfl
    | cons x xs' =>
      cases hx : m (x :: xs') with
      | none =>
        simp only [scanForAt, scanFor, hx]
        exact ih _ _
      | some pr =>
        rcases pr with ⟨op, rest⟩
        simp only [scanForAt, scanFor, hx, List.map_cons]
        rw [ih]

theorem scanForAt_pos_le (m : List Char → Option (TextEditOperation × List Char)) :
    ∀ fuel pos xs q, q ∈ scanForAt m fuel pos xs → pos ≤ q.1 := by
  intro fuel
  induction fuel with
  | zero => intro pos xs q h; simp [scanForAt] at h
  | succ n ih =>
    intro pos xs q h
    cases xs with
    | nil => simp [scanForAt] at h
    | cons x xs' =>
      cases hx : m (x :: xs') with
      | none =>
        simp only [scanForAt, hx] at h
        have := ih _ _ _ h
        omega
      | some pr =>
        rcases pr with ⟨op, rest⟩
        simp only [scanForAt, hx] at h
        rcases List.mem_cons.mp h with h1 | h1
        · rw [h1]
        · have := ih _ _ _ h1
          omega

theorem scanForAt_fst_sorted (m : List Char → Option (TextEditOperation × List Char))
    (hm : ∀ xs op rest, m xs = some (op, rest) → rest.length < xs.length) :
    ∀ fuel pos xs, ((scanForAt m fuel pos xs).map Prod.fst).Pairwise (· < ·) := by
  intro fuel
  induction fuel with
  | zero => intro pos xs; simp [scanForAt]
  | succ n ih =>
    intro pos xs
    cases xs with
    | nil => simp [scanForAt]
    | cons x xs' =>
      cases hx : m (x :: xs') with
      | none =>
        simp only [scanForAt, hx]
        exact ih _ _
      | some pr =>
        rcases pr with ⟨op, rest⟩
        simp only [scanForAt, hx, List.map_cons]
        refine List.Pairwise.cons ?_ (ih _ _)
        intro b hb
        rcases List.mem_map.mp hb with ⟨q, hqmem, hqb⟩
        have hlow := scanForAt_pos_le m n _ _ q hqmem
        have hcons := hm _ _ _ hx
        simp only [List.length_cons] at hlow hcons ⊢
        omega

theorem map_snd_filter_comm (p : TextEditOperation → Bool)
    (l : List (Nat × TextEditOperation)) :
    (l.filter (fun q => p q.2)).map Prod.snd = (l.map Prod.snd).filter p := by
  induction l with
  | nil => rfl
  | cons x xs ih =>
    simp only [List.map_cons, List.filter_cons]
    cases hp : p x.2 <;> simp [hp, ih]

/-- C5 counterexample: a replace with count="0" parses to a retained
directive carrying count 0 — the filter `(edit.count || 1) > 0` treats 0
as absent, so a non-positive count is not dropped. -/
theorem C5_counterexample :
    parseTextEditMarkup
        (strL ("<textedit:replace line=\"2\" count=\"0\">X</textedit:replace>")) =
      [⟨EditType.replace, 2, some 0, some (strL ("X"))⟩] ∧
    ((0 : Int) ≤ 0) := by decide

/-- C5 amended: every extracted directive has a positive line number,
no extracted directive carries a negative count (the count attribute is
digits-only), and for replace and delete the filter guarantees only
`(count || 1) > 0`, which a stored count of 0 passes. -/
theorem C5_amended (text : List Char) (e : TextEditOperation)
    (hmem : e ∈ parseTextEditMarkup text) :
    0 < e.line ∧ (∀ k, e.count = some k → 0 ≤ k) ∧
      ((e.type = EditType.replace ∨ e.type = EditType.delete) →
        0 < countOr1 e.count) := by
  obtain ⟨hl, hsh⟩ := mem_parseTextEditMarkup text e hmem
  refine ⟨hl, ?_, ?_⟩
  · intro k hk
    rcases hsh with ⟨-, hc⟩ | ⟨-, -, k', hk', hk0⟩
    · rw [hc] at hk; cases hk
    · rw [hk'] at hk
      cases hk
      exact hk0
  · intro ht
    rcases hsh with ⟨hi, -⟩ | ⟨-, hc, -⟩
    · rcases ht with h | h <;> · rw [hi] at h; cases h
    · exact hc

/-- C5 witness: the count-zero replace extracted in the counterexample
satisfies the amended invariants. -/
theorem C5_amended_witness :
    0 < (⟨EditType.replace, 2, some 0, some (strL ("X"))⟩ : TextEditOperation).line ∧
      (∀ k, (⟨EditType.replace, 2, some 0, some (strL ("X"))⟩ :
          TextEditOperation).count = some k → 0 ≤ k) ∧
      (((⟨EditType.replace, 2, some 0, some (strL ("X"))⟩ :
            TextEditOperation).type = EditType.replace ∨
          (⟨EditType.replace, 2, some 0, some (strL ("X"))⟩ :
            TextEditOperation).type = EditType.delete) →
        0 < countOr1 (⟨EditType.replace, 2, some 0, some (strL ("X"))⟩ :
          TextEditOperation).count) :=
  C5_amended (strL ("<textedit:replace line=\"2\" count=\"0\">X</textedit:replace>"))
    ⟨EditType.replace, 2, some 0, some (strL ("X"))⟩ (by decide)

/-- C6 counterexample: in a text whose replace directive starts at index
0 and whose insert directive starts at index 47, extraction returns the
insert first — output is grouped by kind, not by first appearance. -/
theorem C6_counterexample :
    parseTextEditMarkup (strL
        ("<textedit:replace line=\"1\">R</textedit:replace><textedit:insert line=\"2\">I</textedit:insert>")) =
      [⟨EditType.insert, 2, none, some (strL ("I"))⟩,
       ⟨EditType.replace, 1, some 1, some (strL ("R"))⟩] ∧
    (splitAtLit (strL ("<textedit:replace")) (strL
        ("<textedit:replace line=\"1\">R</textedit:replace><textedit:insert line=\"2\">I</textedit:insert>"))).map
      (fun q => q.1.length) = some 0 ∧
    (splitAtLit (strL ("<textedit:insert")) (strL
        ("<textedit:replace line=\"1\">R</textedit:replace><textedit:insert line=\"2\">I</textedit:insert>"))).map
      (fun q => q.1.length) = some 47 := by decide

theorem C6_grouping (text : List Char) :
    (parseTextEditMarkup text).Pairwise
      (fun a b => kindRank a.type ≤ kindRank b.type) := by
  rw [parseTextEditMarkup]
  have hA : ∀ e ∈ (scanFor tryInsert (jsTrim text).length (jsTrim text)).filter
      (fun e => decide (0 < e.line)), e.type = EditType.insert := by
    intro e he
    exact scanFor_mem tryInsert _
      (fun xs op rest hx => (tryInsert_shape xs op rest hx).1) _ _ _
      (List.mem_filter.mp he).1
  have hB : ∀ e ∈ (scanFor tryReplace (jsTrim text).length (jsTrim text)).filter
      (fun e => decide (0 < e.line) && decide (0 < countOr1 e.count)),
      e.type = EditType.replace := by
    intro e he
    exact scanFor_mem tryReplace _
      (fun xs op rest hx => (tryReplace_shape xs op rest hx).1) _ _ _
      (List.mem_filter.mp he).1
  have hC : ∀ e ∈ (scanFor tryDelete (jsTrim text).length (jsTrim text)).filter
      (fun e => decide (0 < e.line) && decide (0 < countOr1 e.count)),
      e.type = EditType.delete := by
    intro e he
    exact scanFor_mem tryDelete _
      (fun xs op rest hx => (tryDelete_shape xs op rest hx).1) _ _ _
      (List.mem_filter.mp he).1
  refine List.pairwise_append.mpr
    ⟨List.pairwise_append.mpr ⟨pairwise_rank_const _ _ hA,
      pairwise_rank_const _ _ hB, ?_⟩, pairwise_rank_const _ _ hC, ?_⟩
  · intro a ha b hb
    rw [hA a ha, hB b hb]
    decide
  · intro a ha b hb
    rw [hC b hb]
    rcases List.mem_append.mp ha with h | h
    · rw [hA a h]; decide
    · rw [hB a h]; decide

/-- C6 amended: extraction returns the directives grouped by kind — all
inserts, then all replaces, then all deletes — and each group is
internally in order of first appearance in the (trimmed) text.
Formally: the kind rank is monotone along the returned list; each group
equals the position-erased, filtered output of the position-annotated
scan of its kind; and for each of the three matchers the match start
positions of any filtered annotated scan are strictly increasing. -/
theorem C6_amended (text : List Char) :
    (parseTextEditMarkup text).Pairwise
        (fun a b => kindRank a.type ≤ kindRank b.type) ∧
    parseTextEditMarkup text =
      ((scanForAt tryInsert (jsTrim text).length 0 (jsTrim text)).filter
          (fun q => decide (0 < q.2.line))).map Prod.snd ++
        ((scanForAt tryReplace (jsTrim text).length 0 (jsTrim text)).filter
          (fun q => decide (0 < q.2.line) &&
            decide (0 < countOr1 q.2.count))).map Prod.snd ++
        ((scanForAt tryDelete (jsTrim text).length 0 (jsTrim text)).filter
          (fun q => decide (0 < q.2.line) &&
            decide (0 < countOr1 q.2.count))).map Prod.snd ∧
    (∀ m, m = tryInsert ∨ m = tryReplace ∨ m = tryDelete →
      ∀ (p : Nat × TextEditOperation → Bool) (fuel pos : Nat) (xs : List Char),
        (((scanForAt m fuel pos xs).filter p).map Prod.fst).Pairwise (· < ·)) := by
  refine ⟨?_, ?_, ?_⟩
  · exact C6_grouping text
  · simp only [map_snd_filter_comm (fun e => decide (0 < e.line)),
      map_snd_filter_comm
        (fun e => decide (0 < e.line) && decide (0 < countOr1 e.count)),
      scanForAt_map_snd]
    rfl
  · intro m hm p fuel pos xs
    have hcons : ∀ ys op rest, m ys = some (op, rest) → rest.length < ys.length := by
      rcases hm with h | h | h <;> subst h
      · exact tryInsert_consumes
      · exact tryReplace_consumes
      · exact tryDelete_consumes
    exact (scanForAt_fst_sorted m hcons fuel pos xs).sublist
      (List.Sublist.map Prod.fst (List.filter_sublist _))

/-- C6 witness: on a text whose two inserts appear with lines 9 then 1,
extraction keeps the insert group in textual order (line 9 first), and
the filtered annotated insert scan has strictly increasing positions,
obtained from the amended theorem. -/
theorem C6_amended_witness :
    parseTextEditMarkup (strL
        ("<textedit:insert line=\"9\">B</textedit:insert><textedit:insert line=\"1\">A</textedit:insert>")) =
      [⟨EditType.insert, 9, none, some (strL ("B"))⟩,
       ⟨EditType.insert, 1, none, some (strL ("A"))⟩] ∧
    (((scanForAt tryInsert
        (jsTrim (strL
          ("<textedit:insert line=\"9\">B</textedit:insert><textedit:insert line=\"1\">A</textedit:insert>"))).length
        0
        (jsTrim (strL
          ("<textedit:insert line=\"9\">B</textedit:insert><textedit:insert line=\"1\">A</textedit:insert>")))).filter
      (fun q => decide (0 < q.2.line))).map Prod.fst).Pairwise (· < ·) :=
  ⟨by decide,
    (C6_amended (strL
        ("<textedit:insert line=\"9\">B</textedit:insert><textedit:insert line=\"1\">A</textedit:insert>"))).2.2
      tryInsert (Or.inl rfl) _ _ _ _⟩

/-- C3 counterexample: in a text holding one insert opening and one
replace closing the pooled counts balance, so the check reports the text
complete even though the insert kind has one opening and no closing; and
a lone closing marker with no opener is also reported complete, because
the opening-marker test gates the whole check. -/
theorem C3_counterexample :
    hasIncompleteXmlTags
        (strL ("<textedit:insert line=\"1\">X</textedit:replace>")) = false ∧
      openingInsertTags
        (strL ("<textedit:insert line=\"1\">X</textedit:replace>")) = 1 ∧
      closingInsertTags
        (strL ("<textedit:insert line=\"1\">X</textedit:replace>")) = 0 ∧
      isCompleteText (strL ("</textedit:insert>")) = true := by decide

/-- C3 amended: the completeness check is true exactly when no opening
marker of any kind occurs in the text (case-insensitively) or the pooled
count of opening markers of all kinds equals the pooled count of closing
markers of all kinds (a self-closing delete counting as a closing); the
balance is pooled across kinds, not per kind, and closing markers
without any opener leave the text "complete". -/
theorem C3_amended (msg : List Char) :
    isCompleteText msg = true ↔
      (hasOpeningCi msg = false ∨ openTagsCount msg = closeTagsCount msg) := by
  rw [isCompleteText, hasIncompleteXmlTags]
  cases h : hasOpeningCi msg <;> simp [h]

end Patch
